import Mathlib

/-!
Shallow embedding of the quote-retrieval and symbol-resolution core of the
crypto-tracker repository (src/lib/services/CryptoService.ts), together with
proofs about the correlation, retry, search-ranking and resolver logic.

Network I/O is modelled by an oracle `attempts : Nat → Outcome α` giving the
outcome of the k-th HTTP attempt (k = the `retries` counter of the source,
starting at 0): either a transport-level failure carrying an error message, or
an HTTP response with a status code and an already-parsed body.  Bodies are
`Except String β`: `.error` models a body on which `response.json()` throws.
`Date.now()` is modelled by an explicit `now` parameter.  JS numbers that are
only copied or compared (prices, percentage changes) are modelled as `Rat`;
market-cap ranks as `Int`.
-/

namespace CryptoService

/-- Model of JS `String.prototype.toLowerCase` on the ASCII range, applied
character-wise (`Char.toLower` maps `A`..`Z` to `a`..`z` and fixes everything
else).  Defined on the character list so that it is computable by the kernel. -/
def toLowerStr (s : String) : String := ⟨s.data.map Char.toLower⟩

/-- The fixed alias table `COIN_ID_MAP` of CryptoService.ts (lines 8-19),
mapping short coin ids to CoinGecko's official ids.  A JS object literal with
distinct keys is modelled as an association list. -/
def COIN_ID_MAP : List (String × String) :=
  [("btc", "bitcoin"), ("eth", "ethereum"), ("sol", "solana"),
   ("ada", "cardano"), ("xrp", "ripple"), ("doge", "dogecoin"),
   ("dot", "polkadot"), ("link", "chainlink"), ("matic", "matic-network"),
   ("avax", "avalanche-2")]

/-- `mapToGeckoId` (CryptoService.ts lines 107-109):
`COIN_ID_MAP[userInput.toLowerCase()] ?? userInput.toLowerCase()`. -/
def mapToGeckoId (userInput : String) : String :=
  (COIN_ID_MAP.lookup (toLowerStr userInput)).getD (toLowerStr userInput)

/-- One record of the parsed `/coins/markets` response
(src/lib/types/API.ts `CoinGeckoResponse`).  The 24h-change field can be
absent from the JSON payload, which the source reads as `undefined`;
this is modelled with `Option`. -/
structure CoinGeckoResponse where
  id : String
  symbol : String
  name : String
  current_price : Rat
  price_change_percentage_24h : Option Rat
deriving DecidableEq

/-- The internal quote format `AssetQuote` (CryptoService.ts lines 22-26). -/
structure AssetQuote where
  priceUsd : Rat
  changePercent24h : Rat
  lastUpdated : Int
deriving DecidableEq

/-- `mapToAssetQuote` (CryptoService.ts lines 114-120); `Date.now()` is the
explicit `now` argument. -/
def mapToAssetQuote (coinData : CoinGeckoResponse) (now : Int) : AssetQuote :=
  { priceUsd := coinData.current_price
    changePercent24h := coinData.price_change_percentage_24h.getD 0
    lastUpdated := now }

/-- Outcome of one HTTP attempt: the `fetch(url)` call either rejects with a
transport-level error or resolves to a response with a status code and a body
(already parsed; `.error` inside the body models a `response.json()` failure). -/
inductive Outcome (α : Type) where
  | transportError (msg : String)
  | http (status : Nat) (body : α)
deriving DecidableEq

/-- Result of a whole `fetchWithRetry` call: the final result (transport error
message, or status code with body) plus the list of backoff waits (in ms)
performed before retries, in chronological order. -/
structure FetchTrace (α : Type) where
  result : Except String (Nat × α)
  delays : List Nat

/-- `maxRetries` field of CryptoService (line 45). -/
def maxRetries : Nat := 3

/-- `retryDelay` field of CryptoService (line 46), in milliseconds. -/
def retryDelay : Nat := 1000

/-- `fetchWithRetry` (CryptoService.ts lines 51-74).  Attempt number
`retries` consults the oracle; a 429 status with `retries < maxRetries`
waits `retryDelay * 2 ^ retries` ms and recurses with `retries + 1`; any other
response is returned as-is.  A transport failure retries the same way while
`retries < maxRetries` and otherwise propagates the error. -/
def fetchWithRetry (attempts : Nat → Outcome α) (retries : Nat) : FetchTrace α :=
  match attempts retries with
  | .http status body =>
    if status = 429 ∧ retries < maxRetries then
      let rest := fetchWithRetry attempts (retries + 1)
      ⟨rest.result, (retryDelay * 2 ^ retries) :: rest.delays⟩
    else
      ⟨.ok (status, body), []⟩
  | .transportError msg =>
    if retries < maxRetries then
      let rest := fetchWithRetry attempts (retries + 1)
      ⟨rest.result, (retryDelay * 2 ^ retries) :: rest.delays⟩
    else
      ⟨.error msg, []⟩
termination_by maxRetries - retries
decreasing_by all_goals simp_all [maxRetries]; omega

/-- An attempt outcome is retried by `fetchWithRetry` (budget permitting) iff
it is a transport failure or an HTTP 429. -/
def retriable : Outcome α → Bool
  | .transportError _ => true
  | .http status _ => status == 429

/-- Terminal value `fetchWithRetry` produces from an outcome it does not
retry: transport errors are thrown, responses are returned. -/
def settle : Outcome α → Except String (Nat × α)
  | .transportError msg => .error msg
  | .http status body => .ok (status, body)

/-- Number of HTTP attempts a finished `fetchWithRetry` call made: one initial
attempt plus one per backoff wait. -/
def attemptsUsed (t : FetchTrace α) : Nat := t.delays.length + 1

/-- Model of `Response.ok` of the fetch API: status in the range 200-299. -/
def httpOk (status : Nat) : Bool := 200 ≤ status && status ≤ 299

/-- Parsed body of the `/coins/markets` endpoint. -/
abbrev QuotesBody : Type := Except String (List CoinGeckoResponse)

/-- JS object assignment `result[key] = value` on a string-keyed record:
overwrites the value if the key is present (keeping key order), otherwise
appends the new key at the end. -/
def recordSet (m : List (String × AssetQuote)) (k : String) (v : AssetQuote) :
    List (String × AssetQuote) :=
  if m.any (fun p => p.1 == k) then
    m.map (fun p => if p.1 == k then (k, v) else p)
  else
    m ++ [(k, v)]

/-- JS truthiness of a string value: the empty string is falsy, every other
string is truthy. -/
def strTruthy (s : String) : Bool := s != ""

/-- Body of the correlation loop of `getQuotes` (CryptoService.ts lines
148-156): find the first input id whose resolved id equals the record's id
and store the mapped quote under that input id.  The guard
`if (userInputId)` (line 153) is a JS truthiness test, so it skips the
assignment both when `find` returned `undefined` (the `none` case) and when
the found id is the falsy empty string. -/
def corrStep (assetIds : List String) (now : Int)
    (result : List (String × AssetQuote)) (coin : CoinGeckoResponse) :
    List (String × AssetQuote) :=
  match assetIds.find? (fun id => mapToGeckoId id == coin.id) with
  | some userInputId =>
    if strTruthy userInputId then
      recordSet result userInputId (mapToAssetQuote coin now)
    else
      result
  | none => result

/-- The correlation loop of `getQuotes` (CryptoService.ts lines 146-156):
`data.forEach` over the response records, starting from the empty record. -/
def correlate (assetIds : List String) (data : List CoinGeckoResponse)
    (now : Int) : List (String × AssetQuote) :=
  data.foldl (corrStep assetIds now) []

/-- `getQuotes` (CryptoService.ts lines 125-168).  Empty input short-circuits
to an empty map; otherwise one `fetchWithRetry` call is made, a non-ok status
throws `Failed to fetch prices (status)`, and any error escaping the `try`
block is rethrown wrapped as `Failed to fetch prices: message`. -/
def getQuotes (assetIds : List String) (attempts : Nat → Outcome QuotesBody)
    (now : Int) : Except String (List (String × AssetQuote)) :=
  if assetIds.isEmpty then
    .ok []
  else
    match (fetchWithRetry attempts 0).result with
    | .error msg => .error ("Failed to fetch prices: " ++ msg)
    | .ok (status, body) =>
      if httpOk status then
        match body with
        | .error msg => .error ("Failed to fetch prices: " ++ msg)
        | .ok data => .ok (correlate assetIds data now)
      else
        .error ("Failed to fetch prices: Failed to fetch prices ("
                  ++ toString status ++ ")")

/-- `getQuote` (CryptoService.ts lines 173-176): `getQuotes([assetId])` then
`quotes[assetId] ?? null`. -/
def getQuote (assetId : String) (attempts : Nat → Outcome QuotesBody)
    (now : Int) : Except String (Option AssetQuote) :=
  match getQuotes [assetId] attempts now with
  | .error e => .error e
  | .ok quotes => .ok (quotes.lookup assetId)

/-- One entry of the parsed `/search` response (CryptoService.ts lines 31-37);
`market_cap_rank` is `number | null` upstream. -/
structure SearchResult where
  id : String
  name : String
  symbol : String
  market_cap_rank : Option Int
  thumb : String
deriving DecidableEq

/-- Parsed body of the `/search` endpoint (the `coins` array). -/
abbrev SearchBody : Type := Except String (List SearchResult)

/-- Sort key used by the comparator in `searchCoins` (line 95):
`coin.market_cap_rank || 999999`.  In JS both `null` and `0` are falsy, so
an absent rank and a rank of exactly 0 are both replaced by 999999. -/
def sortKey (c : SearchResult) : Int :=
  match c.market_cap_rank with
  | none => 999999
  | some r => if r = 0 then 999999 else r

/-- Boolean comparison underlying the `searchCoins` sort: ascending in
`sortKey` (the comparator `(a, b) => sortKey a - sortKey b`). -/
def rankLe (a b : SearchResult) : Bool := sortKey a ≤ sortKey b

/-- Insert an element into a sorted list, before the first element it is
`le`-below-or-equal: the insertion step of a stable ascending sort. -/
def stableInsert (le : α → α → Bool) (a : α) : List α → List α
  | [] => [a]
  | b :: bs => if le a b then a :: b :: bs else b :: stableInsert le a bs

/-- Stable ascending sort (insertion sort).  `Array.prototype.sort` with a
consistent comparator is required by ECMAScript to produce the stable sorted
permutation, which is unique, so any stable sort models it faithfully. -/
def stableSort (le : α → α → Bool) : List α → List α
  | [] => []
  | a :: as => stableInsert le a (stableSort le as)

/-- Whitespace test for the model of `String.prototype.trim` (ASCII range). -/
def isSpaceChar (c : Char) : Bool :=
  c == ' ' || c == '\t' || c == '\n' || c == '\r' || c == '\x0b' || c == '\x0c'

/-- Model of JS `String.prototype.trim`: strip leading and trailing
whitespace.  Defined on the character list so the kernel can compute it. -/
def trimStr (s : String) : String :=
  ⟨((s.data.dropWhile isSpaceChar).reverse.dropWhile isSpaceChar).reverse⟩

/-- `searchCoins` (CryptoService.ts lines 79-102).  A blank query returns `[]`
with no request; otherwise one `fetchWithRetry` call is made and every failure
(transport exhaustion, non-ok status, body parse error) is caught by the
enclosing `try`/`catch` and converted to `[]`.  On success the results are
filtered to those with a non-null rank, sorted ascending by the comparator
key, and truncated to the first 10 (`filter`/`sort`/`slice(0, 10)`,
lines 93-96). -/
def searchCoins (query : String) (attempts : Nat → Outcome SearchBody) :
    List SearchResult :=
  if trimStr query = "" then
    []
  else
    match (fetchWithRetry attempts 0).result with
    | .error _ => []
    | .ok (status, body) =>
      if httpOk status then
        match body with
        | .error _ => []
        | .ok data =>
          (stableSort rankLe (data.filter (fun coin => coin.market_cap_rank.isSome))).take 10
      else
        []

deriving instance DecidableEq for Except

/-- The returned list is ascending in the (present) market-cap ranks. -/
def rankAsc (l : List SearchResult) : Prop :=
  l.Pairwise (fun a b => a.market_cap_rank.getD 0 ≤ b.market_cap_rank.getD 0)

/-! Concrete fixtures used to exercise the theorems on closed inputs. -/

/-- Upstream record for bitcoin with price 45000 and 24h change 2. -/
def btcCoin : CoinGeckoResponse :=
  { id := "bitcoin", symbol := "btc", name := "Bitcoin", current_price := 45000,
    price_change_percentage_24h := some 2 }

/-- Upstream record whose 24h-change field is absent. -/
def noChangeCoin : CoinGeckoResponse :=
  { id := "bitcoin", symbol := "btc", name := "Bitcoin", current_price := 45000,
    price_change_percentage_24h := none }

/-- Upstream record carrying a negative price. -/
def negCoin : CoinGeckoResponse :=
  { id := "bitcoin", symbol := "btc", name := "Bitcoin", current_price := -1,
    price_change_percentage_24h := some 2 }

/-- Upstream record whose id is the empty string. -/
def emptyIdCoin : CoinGeckoResponse :=
  { id := "", symbol := "", name := "", current_price := 1,
    price_change_percentage_24h := some 0 }

/-- Oracle answering every quotes request with 200 and one bitcoin record. -/
def c1Atts : Nat → Outcome QuotesBody := fun _ => Outcome.http 200 (Except.ok [btcCoin])

/-- Oracle answering every quotes request with 200 and the empty-id record. -/
def cEmptyAtts : Nat → Outcome QuotesBody := fun _ =>
  Outcome.http 200 (Except.ok [emptyIdCoin])

/-- Oracle answering with 200 and a record lacking the 24h-change field. -/
def c8Atts : Nat → Outcome QuotesBody := fun _ => Outcome.http 200 (Except.ok [noChangeCoin])

/-- Oracle answering with 200 and a record with a negative price. -/
def c9Atts : Nat → Outcome QuotesBody := fun _ => Outcome.http 200 (Except.ok [negCoin])

/-- Parse failure fixture for the retry scenario. -/
def c2Bad : QuotesBody := Except.error "boom"

/-- Successful empty body fixture for the retry scenario. -/
def c2Good : QuotesBody := Except.ok []

/-- Oracle producing three 429 responses followed by a 200 response. -/
def c2Atts : Nat → Outcome QuotesBody := fun i =>
  if i < 3 then Outcome.http 429 c2Bad else Outcome.http 200 c2Good

/-- Oracle answering every quotes request with a plain 500 error. -/
def c4Atts : Nat → Outcome QuotesBody := fun _ => Outcome.http 500 c2Good

/-- Search result with market-cap rank exactly 0 (a JS-falsy rank). -/
def rankZeroCoin : SearchResult :=
  { id := "zero-coin", name := "Zero", symbol := "ZRO", market_cap_rank := some 0,
    thumb := "t" }

/-- Search result with market-cap rank 1. -/
def rankOneCoin : SearchResult :=
  { id := "one-coin", name := "One", symbol := "ONE", market_cap_rank := some 1,
    thumb := "t" }

/-- Search result with market-cap rank 2. -/
def rankTwoCoin : SearchResult :=
  { id := "two-coin", name := "Two", symbol := "TWO", market_cap_rank := some 2,
    thumb := "t" }

/-- Search result with no market-cap rank. -/
def noRankCoin : SearchResult :=
  { id := "norank-coin", name := "NoRank", symbol := "NRK", market_cap_rank := none,
    thumb := "t" }

/-- Search oracle returning a rank-0 record ahead of a rank-1 record. -/
def c6Atts : Nat → Outcome SearchBody := fun _ =>
  Outcome.http 200 (Except.ok [rankZeroCoin, rankOneCoin])

/-- Search oracle returning unordered ranked records mixed with a rankless
one. -/
def c6bAtts : Nat → Outcome SearchBody := fun _ =>
  Outcome.http 200 (Except.ok [rankTwoCoin, rankOneCoin, noRankCoin])

/-! Helper lemmas about the retry loop. -/

/-- Unfolding lemma: an outcome that is neither a transport failure nor a 429
is returned immediately, with no wait, at any retry depth. -/
lemma fwr_stop (attempts : Nat → Outcome α) (r : Nat)
    (h : retriable (attempts r) = false) :
    fetchWithRetry attempts r = ⟨settle (attempts r), []⟩ := by
  rw [fetchWithRetry]
  rcases ha : attempts r with msg | ⟨st, b⟩
  · rw [ha] at h; simp [retriable] at h
  · rw [ha] at h
    have hne : st ≠ 429 := by simpa [retriable] using h
    simp [settle, hne]

/-- Unfolding lemma: once the retry budget is spent, any outcome is settled
immediately (a 429 response is returned, a transport failure is thrown). -/
lemma fwr_exhausted (attempts : Nat → Outcome α) (r : Nat) (h : maxRetries ≤ r) :
    fetchWithRetry attempts r = ⟨settle (attempts r), []⟩ := by
  rw [fetchWithRetry]
  rcases ha : attempts r with msg | ⟨st, b⟩
  · simp [settle]; omega
  · simp [settle]; omega

/-- Unfolding lemma: a retriable outcome within budget waits
`retryDelay * 2 ^ r` ms and continues with the counter increased by one. -/
lemma fwr_retry (attempts : Nat → Outcome α) (r : Nat)
    (h : retriable (attempts r) = true) (hr : r < maxRetries) :
    fetchWithRetry attempts r =
      ⟨(fetchWithRetry attempts (r + 1)).result,
        (retryDelay * 2 ^ r) :: (fetchWithRetry attempts (r + 1)).delays⟩ := by
  rw [fetchWithRetry]
  rcases ha : attempts r with msg | ⟨st, b⟩
  · simp [hr]
  · rw [ha] at h
    have he : st = 429 := by simpa [retriable] using h
    simp [he, hr]

/-- Closed form of a whole `fetchWithRetry` call: with `maxRetries = 3` the
call stops at the first non-retriable outcome among attempts 0, 1, 2, or
settles attempt 3 unconditionally, accumulating the doubling waits. -/
lemma fwr_shape (attempts : Nat → Outcome α) :
    (retriable (attempts 0) = false ∧
      fetchWithRetry attempts 0 = ⟨settle (attempts 0), []⟩) ∨
    (retriable (attempts 0) = true ∧ retriable (attempts 1) = false ∧
      fetchWithRetry attempts 0 = ⟨settle (attempts 1), [1000]⟩) ∨
    (retriable (attempts 0) = true ∧ retriable (attempts 1) = true ∧
      retriable (attempts 2) = false ∧
      fetchWithRetry attempts 0 = ⟨settle (attempts 2), [1000, 2000]⟩) ∨
    (retriable (attempts 0) = true ∧ retriable (attempts 1) = true ∧
      retriable (attempts 2) = true ∧
      fetchWithRetry attempts 0 = ⟨settle (attempts 3), [1000, 2000, 4000]⟩) := by
  by_cases h0 : retriable (attempts 0) = true
  · by_cases h1 : retriable (attempts 1) = true
    · by_cases h2 : retriable (attempts 2) = true
      · refine Or.inr (Or.inr (Or.inr ⟨h0, h1, h2, ?_⟩))
        rw [fwr_retry attempts 0 h0 (by norm_num [maxRetries]),
            fwr_retry attempts 1 h1 (by norm_num [maxRetries]),
            fwr_retry attempts 2 h2 (by norm_num [maxRetries]),
            fwr_exhausted attempts 3 (by norm_num [maxRetries])]
        norm_num [retryDelay]
      · refine Or.inr (Or.inr (Or.inl ⟨h0, h1, eq_false_of_ne_true h2, ?_⟩))
        rw [fwr_retry attempts 0 h0 (by norm_num [maxRetries]),
            fwr_retry attempts 1 h1 (by norm_num [maxRetries]),
            fwr_stop attempts 2 (eq_false_of_ne_true h2)]
        norm_num [retryDelay]
    · refine Or.inr (Or.inl ⟨h0, eq_false_of_ne_true h1, ?_⟩)
      rw [fwr_retry attempts 0 h0 (by norm_num [maxRetries]),
          fwr_stop attempts 1 (eq_false_of_ne_true h1)]
      norm_num [retryDelay]
  · exact Or.inl ⟨eq_false_of_ne_true h0, fwr_stop attempts 0 (eq_false_of_ne_true h0)⟩

/-! Helper lemmas about the identifier resolver. -/

/-- A successful association-list lookup returns a pair of the list. -/
lemma lookup_mem {l : List (String × String)} {k v : String}
    (h : l.lookup k = some v) : (k, v) ∈ l := by
  induction l with
  | nil => simp [List.lookup] at h
  | cons p t ih =>
    obtain ⟨a, b⟩ := p
    rw [List.lookup] at h
    by_cases hk : (k == a) = true
    · simp only [hk] at h
      obtain rfl : b = v := by simpa using h
      obtain rfl : k = a := by simpa using hk
      exact List.mem_cons_self _ _
    · simp only [eq_false_of_ne_true hk] at h
      exact List.mem_cons_of_mem _ (ih h)

/-- ASCII lowercasing of a character is idempotent: a lowered character is
never in the `A`..`Z` range again. -/
lemma charToLower_idem (c : Char) :
    Char.toLower (Char.toLower c) = Char.toLower c := by
  have key : ∀ n : Nat, 65 ≤ n → n ≤ 90 → (Char.ofNat (n + 32)).toNat = n + 32 := by
    intro n h1 h2
    interval_cases n <;> decide
  unfold Char.toLower
  by_cases h : c.toNat ≥ 65 ∧ c.toNat ≤ 90
  · rw [if_pos h]
    have hn := key c.toNat h.1 h.2
    rw [if_neg]
    omega
  · simp [h]

/-- Lowercasing a string is idempotent. -/
lemma toLowerStr_idem (s : String) : toLowerStr (toLowerStr s) = toLowerStr s := by
  unfold toLowerStr
  refine congrArg String.mk ?_
  show (s.data.map Char.toLower).map Char.toLower = s.data.map Char.toLower
  rw [List.map_map]
  exact List.map_congr_left (fun c _ => charToLower_idem c)

/-- Every value of the alias table is itself resolved to itself: canonical
ids are lowercase and never appear among the alias keys. -/
lemma mapToGeckoId_table_value {k v : String} (h : (k, v) ∈ COIN_ID_MAP) :
    mapToGeckoId v = v := by
  have hv : v = "bitcoin" ∨ v = "ethereum" ∨ v = "solana" ∨ v = "cardano" ∨
      v = "ripple" ∨ v = "dogecoin" ∨ v = "polkadot" ∨ v = "chainlink" ∨
      v = "matic-network" ∨ v = "avalanche-2" := by
    simp only [COIN_ID_MAP, List.mem_cons, List.not_mem_nil, or_false,
      Prod.mk.injEq] at h
    tauto
  rcases hv with rfl | rfl | rfl | rfl | rfl | rfl | rfl | rfl | rfl | rfl <;> decide

/-! Helper lemmas about the correlation loop. -/

/-- Membership after a JS-object assignment: the new pair is present, and the
old pairs survive exactly at the other keys. -/
lemma recordSet_mem {m : List (String × AssetQuote)} {k : String}
    {v : AssetQuote} {k' : String} {v' : AssetQuote} :
    (k', v') ∈ recordSet m k v ↔
      (k' = k ∧ v' = v) ∨ ((k', v') ∈ m ∧ k' ≠ k) := by
  unfold recordSet
  by_cases hany : m.any (fun p => p.1 == k) = true
  · rw [if_pos hany]
    constructor
    · intro h
      obtain ⟨p, hp, hfp⟩ := List.mem_map.mp h
      by_cases hk : (p.1 == k) = true
      · rw [if_pos hk] at hfp
        exact Or.inl ⟨(Prod.mk.injEq .. ▸ hfp.symm).1, (Prod.mk.injEq .. ▸ hfp.symm).2⟩
      · rw [if_neg hk] at hfp
        refine Or.inr ⟨hfp ▸ hp, ?_⟩
        intro hkk
        exact hk (by rw [hfp]; simp [hkk])
    · rintro (⟨rfl, rfl⟩ | ⟨hm, hne⟩)
      · obtain ⟨p, hp, hpk⟩ := List.any_eq_true.mp hany
        exact List.mem_map.mpr ⟨p, hp, by rw [if_pos hpk]⟩
      · refine List.mem_map.mpr ⟨(k', v'), hm, ?_⟩
        rw [if_neg (by simpa using hne)]
  · rw [if_neg hany]
    have hkeys : ∀ p ∈ m, p.1 ≠ k := fun p hp hpk =>
      hany (List.any_eq_true.mpr ⟨p, hp, by simp [hpk]⟩)
    constructor
    · intro h
      rcases List.mem_append.mp h with hm | hnew
      · exact Or.inr ⟨hm, hkeys _ hm⟩
      · exact Or.inl (by simpa using hnew)
    · rintro (⟨rfl, rfl⟩ | ⟨hm, _⟩)
      · exact List.mem_append.mpr (Or.inr (by simp))
      · exact List.mem_append.mpr (Or.inl hm)

/-- The assigned key is present after a JS-object assignment. -/
lemma recordSet_key_present (m : List (String × AssetQuote)) (k : String)
    (v : AssetQuote) : ∃ w, (k, w) ∈ recordSet m k v :=
  ⟨v, recordSet_mem.mpr (Or.inl ⟨rfl, rfl⟩)⟩

/-- Every key present before a JS-object assignment is present after it. -/
lemma recordSet_preserves {m : List (String × AssetQuote)} {k₀ : String}
    {v₀ : AssetQuote} {k : String} (h : ∃ v, (k, v) ∈ m) :
    ∃ v, (k, v) ∈ recordSet m k₀ v₀ := by
  by_cases hk : k = k₀
  · exact hk ▸ recordSet_key_present m k₀ v₀
  · obtain ⟨v, hv⟩ := h
    exact ⟨v, recordSet_mem.mpr (Or.inr ⟨hv, hk⟩)⟩

/-- One correlation step never deletes a key. -/
lemma corrStep_preserves {assetIds : List String} {now : Int}
    {m : List (String × AssetQuote)} {coin : CoinGeckoResponse} {k : String}
    (h : ∃ v, (k, v) ∈ m) : ∃ v, (k, v) ∈ corrStep assetIds now m coin := by
  unfold corrStep
  rcases hf : assetIds.find? (fun id => mapToGeckoId id == coin.id) with _ | u
  · exact h
  · dsimp only
    by_cases ht : strTruthy u
    · rw [if_pos ht]
      exact recordSet_preserves h
    · rw [if_neg ht]
      exact h

/-- The correlation fold never deletes a key. -/
lemma correlate_fold_preserves {assetIds : List String} {now : Int} :
    ∀ (data : List CoinGeckoResponse) (m : List (String × AssetQuote))
      (k : String), (∃ v, (k, v) ∈ m) →
      ∃ v, (k, v) ∈ data.foldl (corrStep assetIds now) m := by
  intro data
  induction data with
  | nil => intro m k h; exact h
  | cons coin rest ih =>
    intro m k h
    exact ih (corrStep assetIds now m coin) k (corrStep_preserves h)

/-- Origin of an entry of the correlation fold: it was already in the
accumulator, or it is the mapped quote of some processed record stored under
the first input id resolving to that record's id, that id being a truthy
(non-empty) string. -/
lemma correlate_fold_mem {assetIds : List String} {now : Int} :
    ∀ (data : List CoinGeckoResponse) (m : List (String × AssetQuote))
      (k : String) (v : AssetQuote),
      (k, v) ∈ data.foldl (corrStep assetIds now) m →
      (k, v) ∈ m ∨
        ∃ coin ∈ data,
          assetIds.find? (fun id => mapToGeckoId id == coin.id) = some k ∧
          k ≠ "" ∧ v = mapToAssetQuote coin now := by
  intro data
  induction data with
  | nil => intro m k v h; exact Or.inl h
  | cons coin rest ih =>
    intro m k v h
    rcases ih (corrStep assetIds now m coin) k v h with hstep |
      ⟨c, hc, hfind, hne, hv⟩
    · unfold corrStep at hstep
      rcases hf : assetIds.find? (fun id => mapToGeckoId id == coin.id) with _ | u
      · rw [hf] at hstep
        exact Or.inl hstep
      · rw [hf] at hstep
        dsimp only at hstep
        by_cases ht : strTruthy u
        · rw [if_pos ht] at hstep
          rcases recordSet_mem.mp hstep with ⟨rfl, rfl⟩ | ⟨hm, _⟩
          · exact Or.inr ⟨coin, List.mem_cons_self .., hf,
              by simpa [strTruthy] using ht, rfl⟩
          · exact Or.inl hm
        · rw [if_neg ht] at hstep
          exact Or.inl hstep
    · exact Or.inr ⟨c, List.mem_cons_of_mem _ hc, hfind, hne, hv⟩

/-- Every processed record whose id is resolved to by some input id leaves an
entry under the first such input id, provided that id is truthy
(non-empty). -/
lemma correlate_fold_covered {assetIds : List String} {now : Int} :
    ∀ (data : List CoinGeckoResponse) (m : List (String × AssetQuote))
      (coin : CoinGeckoResponse) (k : String), coin ∈ data → k ≠ "" →
      assetIds.find? (fun id => mapToGeckoId id == coin.id) = some k →
      ∃ v, (k, v) ∈ data.foldl (corrStep assetIds now) m := by
  intro data
  induction data with
  | nil => intro m coin k h; exact absurd h (List.not_mem_nil _)
  | cons c rest ih =>
    intro m coin k hmem hne hfind
    rcases List.mem_cons.mp hmem with rfl | htail
    · refine correlate_fold_preserves rest _ k ?_
      unfold corrStep
      rw [hfind]
      dsimp only
      rw [if_pos (by simpa [strTruthy] using hne)]
      exact recordSet_key_present ..
    · exact ih _ coin k htail hne hfind

/-! Helper lemmas about the stable sort and the service entry points. -/

/-- Inserting into a list is a permutation of consing. -/
lemma stableInsert_perm (le : α → α → Bool) (a : α) :
    ∀ l : List α, (stableInsert le a l).Perm (a :: l) := by
  intro l
  induction l with
  | nil => rfl
  | cons b bs ih =>
    unfold stableInsert
    by_cases h : le a b
    · rw [if_pos h]
    · rw [if_neg h]
      exact ((ih.cons b).trans (List.Perm.swap a b bs))

/-- The stable sort permutes its input. -/
lemma stableSort_perm (le : α → α → Bool) :
    ∀ l : List α, (stableSort le l).Perm l := by
  intro l
  induction l with
  | nil => rfl
  | cons a as ih =>
    exact (stableInsert_perm le a (stableSort le as)).trans (ih.cons a)

/-- Insertion preserves sortedness when the comparison is total and
transitive. -/
lemma stableInsert_pairwise (le : α → α → Bool)
    (htot : ∀ a b, le a b = true ∨ le b a = true)
    (htrans : ∀ a b c, le a b = true → le b c = true → le a c = true)
    (a : α) : ∀ l : List α, l.Pairwise (fun x y => le x y = true) →
      (stableInsert le a l).Pairwise (fun x y => le x y = true) := by
  intro l
  induction l with
  | nil => intro _; simp [stableInsert]
  | cons b bs ih =>
    intro hp
    obtain ⟨hb, hbs⟩ := List.pairwise_cons.mp hp
    unfold stableInsert
    by_cases h : le a b
    · rw [if_pos h]
      refine List.pairwise_cons.mpr ⟨?_, hp⟩
      intro x hx
      rcases List.mem_cons.mp hx with rfl | hx
      · exact h
      · exact htrans a b x h (hb x hx)
    · rw [if_neg h]
      have hba : le b a = true := (htot a b).resolve_left h
      refine List.pairwise_cons.mpr ⟨?_, ih hbs⟩
      intro x hx
      rcases List.mem_cons.mp ((stableInsert_perm le a bs).mem_iff.mp hx) with rfl | hx
      · exact hba
      · exact hb x hx

/-- The stable sort sorts, for a total transitive comparison. -/
lemma stableSort_pairwise (le : α → α → Bool)
    (htot : ∀ a b, le a b = true ∨ le b a = true)
    (htrans : ∀ a b c, le a b = true → le b c = true → le a c = true) :
    ∀ l : List α, (stableSort le l).Pairwise (fun x y => le x y = true) := by
  intro l
  induction l with
  | nil => simp [stableSort]
  | cons a as ih => exact stableInsert_pairwise le htot htrans a _ ih

/-- Inversion of a successful `getQuotes` call whose single fetch produced a
parsed body: either the input was empty, or the status was ok and the result
is the correlation of the parsed records. -/
lemma getQuotes_ok_inv {assetIds : List String}
    {attempts : Nat → Outcome QuotesBody} {now : Int} {st : Nat}
    {data : List CoinGeckoResponse} {m : List (String × AssetQuote)}
    (hfetch : (fetchWithRetry attempts 0).result = Except.ok (st, Except.ok data))
    (hok : getQuotes assetIds attempts now = Except.ok m) :
    (assetIds = [] ∧ m = []) ∨
      (httpOk st = true ∧ m = correlate assetIds data now) := by
  unfold getQuotes at hok
  by_cases he : assetIds.isEmpty
  · rw [if_pos he] at hok
    simp only [Except.ok.injEq] at hok
    exact Or.inl ⟨List.isEmpty_iff.mp he, hok.symm⟩
  · rw [if_neg he, hfetch] at hok
    dsimp only at hok
    by_cases hst : httpOk st
    · rw [if_pos hst] at hok
      simp only [Except.ok.injEq] at hok
      exact Or.inr ⟨hst, hok.symm⟩
    · rw [if_neg hst] at hok
      simp at hok

/-- Unfolding of a successful `searchCoins` call: filter, stable sort by the
comparator key, truncate to 10. -/
lemma searchCoins_ok {query : String} {attempts : Nat → Outcome SearchBody}
    {st : Nat} {coins : List SearchResult}
    (hfetch : (fetchWithRetry attempts 0).result = Except.ok (st, Except.ok coins))
    (hst : httpOk st = true) (hq : trimStr query ≠ "") :
    searchCoins query attempts =
      (stableSort rankLe (coins.filter (fun c => c.market_cap_rank.isSome))).take 10 := by
  unfold searchCoins
  rw [if_neg hq, hfetch]
  dsimp only
  rw [if_pos hst]

/-- On nonempty input, a transport failure surviving the retries is rethrown
by `getQuotes` wrapped in the consolidated message. -/
lemma getQuotes_fetch_error {assetIds : List String}
    {attempts : Nat → Outcome QuotesBody} {now : Int} {msg : String}
    (hne : assetIds ≠ [])
    (hfetch : (fetchWithRetry attempts 0).result = Except.error msg) :
    getQuotes assetIds attempts now =
      Except.error ("Failed to fetch prices: " ++ msg) := by
  unfold getQuotes
  rw [if_neg (by simpa [List.isEmpty_iff] using hne), hfetch]

/-- On nonempty input, a non-ok final status makes `getQuotes` fail with the
wrapped message carrying the status code. -/
lemma getQuotes_status_error {assetIds : List String}
    {attempts : Nat → Outcome QuotesBody} {now : Int} {st : Nat}
    {body : QuotesBody} (hne : assetIds ≠ [])
    (hfetch : (fetchWithRetry attempts 0).result = Except.ok (st, body))
    (hst : httpOk st = false) :
    getQuotes assetIds attempts now =
      Except.error ("Failed to fetch prices: Failed to fetch prices ("
        ++ toString st ++ ")") := by
  unfold getQuotes
  rw [if_neg (by simpa [List.isEmpty_iff] using hne), hfetch]
  dsimp only
  rw [if_neg (by simp [hst])]

/-- On nonempty input with an ok status and a parsed body, `getQuotes`
returns the correlation of the records. -/
lemma getQuotes_success {assetIds : List String}
    {attempts : Nat → Outcome QuotesBody} {now : Int} {st : Nat}
    {data : List CoinGeckoResponse} (hne : assetIds ≠ [])
    (hfetch : (fetchWithRetry attempts 0).result = Except.ok (st, Except.ok data))
    (hst : httpOk st = true) :
    getQuotes assetIds attempts now = Except.ok (correlate assetIds data now) := by
  unfold getQuotes
  rw [if_neg (by simpa [List.isEmpty_iff] using hne), hfetch]
  dsimp only
  rw [if_pos hst]

/-- Origin of an entry of `correlate`: the quote of some record of the data,
keyed by the first input id resolving to that record's id, that id being
non-empty (the truthiness guard). -/
lemma correlate_mem {assetIds : List String} {now : Int}
    {data : List CoinGeckoResponse} {k : String} {v : AssetQuote}
    (h : (k, v) ∈ correlate assetIds data now) :
    ∃ coin ∈ data,
      assetIds.find? (fun id => mapToGeckoId id == coin.id) = some k ∧
      k ≠ "" ∧ v = mapToAssetQuote coin now := by
  unfold correlate at h
  rcases correlate_fold_mem data [] k v h with h0 | h1
  · exact absurd h0 (List.not_mem_nil _)
  · exact h1

/-- Every record of the data whose id is resolved to by some non-empty input
id leaves an entry in `correlate` under the first such id. -/
lemma correlate_covered {assetIds : List String} {now : Int}
    {data : List CoinGeckoResponse} {coin : CoinGeckoResponse} {k : String}
    (hc : coin ∈ data) (hne : k ≠ "")
    (hf : assetIds.find? (fun id => mapToGeckoId id == coin.id) = some k) :
    ∃ v, (k, v) ∈ correlate assetIds data now := by
  unfold correlate
  exact correlate_fold_covered data [] coin k hc hne hf

/-! Claim theorems. -/

/-- Claim C7: the resolver is a total pure function on strings: it
lower-cases its input, returns the fixed-table canonical id when the
lower-cased input is an alias key, and otherwise returns the lower-cased
input unchanged; in particular resolve("BTC") = resolve("btc") = "bitcoin"
and resolve("unknownxyz") = "unknownxyz". -/
theorem resolver_total_c7 (s c : String) :
    ((toLowerStr s, c) ∈ COIN_ID_MAP → mapToGeckoId s = c) ∧
    (toLowerStr s ∉ COIN_ID_MAP.map Prod.fst → mapToGeckoId s = toLowerStr s) ∧
    mapToGeckoId "BTC" = "bitcoin" ∧ mapToGeckoId "btc" = "bitcoin" ∧
    mapToGeckoId "unknownxyz" = "unknownxyz" := by
  refine ⟨?_, ?_, by decide, by decide, by decide⟩
  · intro h
    unfold mapToGeckoId
    simp only [COIN_ID_MAP, List.mem_cons, List.not_mem_nil, or_false,
      Prod.mk.injEq] at h
    rcases h with ⟨h1, rfl⟩ | ⟨h1, rfl⟩ | ⟨h1, rfl⟩ | ⟨h1, rfl⟩ | ⟨h1, rfl⟩ |
      ⟨h1, rfl⟩ | ⟨h1, rfl⟩ | ⟨h1, rfl⟩ | ⟨h1, rfl⟩ | ⟨h1, rfl⟩ <;>
      rw [h1] <;> decide
  · intro h
    unfold mapToGeckoId
    rcases hl : COIN_ID_MAP.lookup (toLowerStr s) with _ | v
    · rfl
    · exact absurd (List.mem_map.mpr ⟨(toLowerStr s, v), lookup_mem hl, rfl⟩) h

/-- Witness for C7 at concrete inputs: the alias hit "BTC" and the
pass-through miss "unknownxyz". -/
theorem resolver_total_c7_witness :
    mapToGeckoId "BTC" = "bitcoin" ∧ mapToGeckoId "unknownxyz" = "unknownxyz" :=
  ⟨(resolver_total_c7 "BTC" "bitcoin").1 (by decide),
   (resolver_total_c7 "unknownxyz" "unknownxyz").2.1 (by decide)⟩

/-- Claim C10: identifier resolution is idempotent: resolving an already
resolved id returns it unchanged, because no canonical id of the alias table
is itself an alias key and unmatched lower-cased strings map to themselves. -/
theorem resolver_idempotent_c10 (s : String) :
    mapToGeckoId (mapToGeckoId s) = mapToGeckoId s := by
  rcases hl : COIN_ID_MAP.lookup (toLowerStr s) with _ | v
  · have h1 : mapToGeckoId s = toLowerStr s := by
      unfold mapToGeckoId
      rw [hl]
      rfl
    rw [h1]
    unfold mapToGeckoId
    rw [toLowerStr_idem, hl]
    rfl
  · have h1 : mapToGeckoId s = v := by
      unfold mapToGeckoId
      rw [hl]
      rfl
    rw [h1]
    exact mapToGeckoId_table_value (lookup_mem hl)

/-- Claim C2: attempt k+1 is issued iff attempt k was issued and ended in a
transport failure or an HTTP 429 and k < 3 (one shared retry counter), with a
wait of 1000 * 2 ^ k ms before attempt k+1; in particular three consecutive
429 responses followed by a 200 produce exactly three retries with waits of
1000, 2000, 4000 ms before the success is returned. -/
theorem retry_backoff_c2 {α : Type} (attempts : Nat → Outcome α) (k : Nat) :
    (k + 1 < attemptsUsed (fetchWithRetry attempts 0) ↔
      k < attemptsUsed (fetchWithRetry attempts 0) ∧
        retriable (attempts k) = true ∧ k < 3) ∧
    (k + 1 < attemptsUsed (fetchWithRetry attempts 0) →
      (fetchWithRetry attempts 0).delays.getD k 0 = 1000 * 2 ^ k) ∧
    (∀ bad good : α,
      fetchWithRetry
        (fun i => if i < 3 then Outcome.http 429 bad else Outcome.http 200 good) 0 =
        ⟨Except.ok (200, good), [1000, 2000, 4000]⟩) := by
  refine ⟨?_, ?_, ?_⟩
  · rcases fwr_shape attempts with ⟨h0, heq⟩ | ⟨h0, h1, heq⟩ |
      ⟨h0, h1, h2, heq⟩ | ⟨h0, h1, h2, heq⟩
    · have hn : attemptsUsed (fetchWithRetry attempts 0) = 1 := by rw [heq]; rfl
      rw [hn]
      constructor
      · intro hlt; omega
      · rintro ⟨hk, hr, -⟩
        obtain rfl : k = 0 := by omega
        rw [h0] at hr
        cases hr
    · have hn : attemptsUsed (fetchWithRetry attempts 0) = 2 := by rw [heq]; rfl
      rw [hn]
      constructor
      · intro hlt
        obtain rfl : k = 0 := by omega
        exact ⟨by omega, h0, by omega⟩
      · rintro ⟨hk, hr, -⟩
        rcases (show k = 0 ∨ k = 1 by omega) with rfl | rfl
        · omega
        · rw [h1] at hr
          cases hr
    · have hn : attemptsUsed (fetchWithRetry attempts 0) = 3 := by rw [heq]; rfl
      rw [hn]
      constructor
      · intro hlt
        rcases (show k = 0 ∨ k = 1 by omega) with rfl | rfl
        · exact ⟨by omega, h0, by omega⟩
        · exact ⟨by omega, h1, by omega⟩
      · rintro ⟨hk, hr, -⟩
        rcases (show k = 0 ∨ k = 1 ∨ k = 2 by omega) with rfl | rfl | rfl
        · omega
        · omega
        · rw [h2] at hr
          cases hr
    · have hn : attemptsUsed (fetchWithRetry attempts 0) = 4 := by rw [heq]; rfl
      rw [hn]
      constructor
      · intro hlt
        rcases (show k = 0 ∨ k = 1 ∨ k = 2 by omega) with rfl | rfl | rfl
        · exact ⟨by omega, h0, by omega⟩
        · exact ⟨by omega, h1, by omega⟩
        · exact ⟨by omega, h2, by omega⟩
      · rintro ⟨hk, hr, hk3⟩
        omega
  · intro hk
    rcases fwr_shape attempts with ⟨h0, heq⟩ | ⟨h0, h1, heq⟩ |
      ⟨h0, h1, h2, heq⟩ | ⟨h0, h1, h2, heq⟩
    · have hn : attemptsUsed (fetchWithRetry attempts 0) = 1 := by rw [heq]; rfl
      rw [hn] at hk
      omega
    · have hn : attemptsUsed (fetchWithRetry attempts 0) = 2 := by rw [heq]; rfl
      rw [hn] at hk
      obtain rfl : k = 0 := by omega
      rw [heq]
      rfl
    · have hn : attemptsUsed (fetchWithRetry attempts 0) = 3 := by rw [heq]; rfl
      rw [hn] at hk
      rw [heq]
      rcases (show k = 0 ∨ k = 1 by omega) with rfl | rfl <;> rfl
    · have hn : attemptsUsed (fetchWithRetry attempts 0) = 4 := by rw [heq]; rfl
      rw [hn] at hk
      rw [heq]
      rcases (show k = 0 ∨ k = 1 ∨ k = 2 by omega) with rfl | rfl | rfl <;> rfl
  · intro bad good
    rw [fwr_retry _ 0 (by norm_num [retriable]) (by norm_num [maxRetries]),
        fwr_retry _ 1 (by norm_num [retriable]) (by norm_num [maxRetries]),
        fwr_retry _ 2 (by norm_num [retriable]) (by norm_num [maxRetries]),
        fwr_exhausted _ 3 (by norm_num [maxRetries])]
    norm_num [settle, retryDelay]

/-- Witness for C2: on the 429,429,429,200 scenario the wait before the
first retry is 1000 * 2 ^ 0 ms. -/
theorem retry_backoff_c2_witness :
    (fetchWithRetry c2Atts 0).delays.getD 0 0 = 1000 * 2 ^ 0 :=
  (retry_backoff_c2 c2Atts 0).2.1 (by
    unfold c2Atts
    rw [(retry_backoff_c2 (fun _ : Nat => Outcome.http 200 c2Good) 0).2.2 c2Bad c2Good]
    decide)

/-- Claim C3: the executor terminates after at most 4 HTTP attempts (1
initial plus 3 retries) for every outcome sequence; in particular four
consecutive 429 responses make `getQuotes` fail with an error instead of
retrying indefinitely. -/
theorem retry_exhaustion_c3 {α : Type} (attempts : Nat → Outcome α) :
    attemptsUsed (fetchWithRetry attempts 0) ≤ 4 ∧
    (∀ (body : QuotesBody) (assetIds : List String) (now : Int), assetIds ≠ [] →
      getQuotes assetIds (fun _ => Outcome.http 429 body) now =
        Except.error "Failed to fetch prices: Failed to fetch prices (429)") := by
  constructor
  · rcases fwr_shape attempts with ⟨_, heq⟩ | ⟨_, _, heq⟩ |
      ⟨_, _, _, heq⟩ | ⟨_, _, _, heq⟩ <;> rw [heq] <;> simp [attemptsUsed]
  · intro body assetIds now hne
    have hres : (fetchWithRetry (fun _ => Outcome.http 429 body) 0).result =
        Except.ok (429, body) := by
      rcases fwr_shape (fun _ : Nat => Outcome.http 429 body) with
        ⟨h0, _⟩ | ⟨_, h1, _⟩ | ⟨_, _, h2, _⟩ | ⟨_, _, _, heq⟩
      · simp [retriable] at h0
      · simp [retriable] at h1
      · simp [retriable] at h2
      · rw [heq]
        rfl
    rw [getQuotes_status_error hne hres (by decide)]
    exact congrArg Except.error (by decide)

/-- Witness for C3: four straight 429 responses on a one-id `getQuotes` call
produce the wrapped 429 failure. -/
theorem retry_exhaustion_c3_witness :
    getQuotes ["btc"] (fun _ => Outcome.http 429 c2Good) 0 =
      Except.error "Failed to fetch prices: Failed to fetch prices (429)" :=
  (retry_exhaustion_c3 (fun _ : Nat => Outcome.http 429 c2Good)).2 c2Good ["btc"] 0
    (by decide)

/-- Claim C4: a non-2xx status other than 429 on any issued attempt is never
retried (that attempt is the last one), and `getQuotes` fails on its first
occurrence with a fetch-failure message carrying the status code. -/
theorem terminal_status_c4 (assetIds : List String)
    (attempts : Nat → Outcome QuotesBody) (now : Int) (k st : Nat)
    (body : QuotesBody) (hne : assetIds ≠ [])
    (hk : attempts k = Outcome.http st body) (hst : httpOk st = false)
    (h429 : st ≠ 429) (hprev : ∀ j, j < k → retriable (attempts j) = true)
    (hk3 : k ≤ 3) :
    attemptsUsed (fetchWithRetry attempts 0) = k + 1 ∧
    (fetchWithRetry attempts 0).result = Except.ok (st, body) ∧
    getQuotes assetIds attempts now =
      Except.error ("Failed to fetch prices: Failed to fetch prices ("
        ++ toString st ++ ")") := by
  have hrk : retriable (attempts k) = false := by
    rw [hk]
    simp [retriable, h429]
  have hshape : fetchWithRetry attempts 0 =
      ⟨settle (attempts k), (List.range k).map (fun j => 1000 * 2 ^ j)⟩ := by
    rcases fwr_shape attempts with ⟨h0, heq⟩ | ⟨h0, h1, heq⟩ |
      ⟨h0, h1, h2, heq⟩ | ⟨h0, h1, h2, heq⟩
    · obtain rfl : k = 0 := by
        by_contra hc
        exact absurd (hprev 0 (by omega)) (by rw [h0]; simp)
      simpa using heq
    · obtain rfl : k = 1 := by
        rcases (show k = 0 ∨ k = 1 ∨ 2 ≤ k by omega) with rfl | rfl | h2k
        · rw [hrk] at h0; cases h0
        · rfl
        · exact absurd (hprev 1 (by omega)) (by rw [h1]; simp)
      simpa using heq
    · obtain rfl : k = 2 := by
        rcases (show k = 0 ∨ k = 1 ∨ k = 2 ∨ 3 ≤ k by omega) with rfl | rfl | rfl | h3k
        · rw [hrk] at h0; cases h0
        · rw [hrk] at h1; cases h1
        · rfl
        · exact absurd (hprev 2 (by omega)) (by rw [h2]; simp)
      simpa using heq
    · obtain rfl : k = 3 := by
        rcases (show k = 0 ∨ k = 1 ∨ k = 2 ∨ k = 3 by omega) with rfl | rfl | rfl | rfl
        · rw [hrk] at h0; cases h0
        · rw [hrk] at h1; cases h1
        · rw [hrk] at h2; cases h2
        · rfl
      simpa using heq
  have hres : (fetchWithRetry attempts 0).result = Except.ok (st, body) := by
    rw [hshape]
    dsimp only
    rw [hk]
    rfl
  refine ⟨?_, hres, getQuotes_status_error hne hres hst⟩
  rw [hshape]
  simp [attemptsUsed]

/-- Witness for C4: a 500 on the first attempt of a one-id `getQuotes` call
is terminal with no retry. -/
theorem terminal_status_c4_witness :
    attemptsUsed (fetchWithRetry c4Atts 0) = 0 + 1 ∧
    (fetchWithRetry c4Atts 0).result = Except.ok (500, c2Good) ∧
    getQuotes ["btc"] c4Atts 0 =
      Except.error ("Failed to fetch prices: Failed to fetch prices ("
        ++ toString 500 ++ ")") :=
  terminal_status_c4 ["btc"] c4Atts 0 0 500 c2Good (by decide) rfl (by decide)
    (by decide) (fun j hj => absurd hj (by omega)) (by decide)

/-- Claim C5: `searchCoins` never propagates a failure: a transport failure
surviving the retries, any non-2xx final status (including exhausted 429s),
and a malformed body each yield the empty list. -/
theorem search_swallows_c5 (query : String) (attempts : Nat → Outcome SearchBody) :
    (∀ msg, (fetchWithRetry attempts 0).result = Except.error msg →
      searchCoins query attempts = []) ∧
    (∀ st body, (fetchWithRetry attempts 0).result = Except.ok (st, body) →
      httpOk st = false → searchCoins query attempts = []) ∧
    (∀ st msg, (fetchWithRetry attempts 0).result = Except.ok (st, Except.error msg) →
      searchCoins query attempts = []) := by
  refine ⟨?_, ?_, ?_⟩
  · intro msg hfetch
    unfold searchCoins
    by_cases hq : trimStr query = ""
    · rw [if_pos hq]
    · rw [if_neg hq, hfetch]
  · intro st body hfetch hst
    unfold searchCoins
    by_cases hq : trimStr query = ""
    · rw [if_pos hq]
    · rw [if_neg hq, hfetch]
      dsimp only
      rw [if_neg (by simp [hst])]
  · intro st msg hfetch
    unfold searchCoins
    by_cases hq : trimStr query = ""
    · rw [if_pos hq]
    · rw [if_neg hq, hfetch]
      dsimp only
      by_cases hst : httpOk st
      · rw [if_pos hst]
      · rw [if_neg hst]

/-- Witness for C5: a permanent transport failure makes `searchCoins` return
the empty list. -/
theorem search_swallows_c5_witness :
    searchCoins "btc" (fun _ => Outcome.transportError "down") = [] :=
  (search_swallows_c5 "btc" (fun _ => Outcome.transportError "down")).1 "down"
    (by
      rcases fwr_shape (fun _ : Nat => Outcome.transportError "down" :
          Nat → Outcome SearchBody) with
        ⟨h0, _⟩ | ⟨_, h1, _⟩ | ⟨_, _, h2, _⟩ | ⟨_, _, _, heq⟩
      · simp [retriable] at h0
      · simp [retriable] at h1
      · simp [retriable] at h2
      · rw [heq]
        rfl)

/-- Counterexample to C1 as stated: with input [""] and one upstream record
whose id is "", the first input id whose resolved canonical id equals the
record's id exists (find? succeeds with ""), yet the truthiness guard
`if (userInputId)` of the source drops the falsy empty string, so the
successful call returns the empty map instead of pairing the record
under "". -/
theorem quote_correlation_c1_counterexample :
    [""].find? (fun i => mapToGeckoId i == emptyIdCoin.id) = some "" ∧
    getQuotes [""] cEmptyAtts 0 = Except.ok [] := by
  refine ⟨by decide, ?_⟩
  have hfetch : (fetchWithRetry cEmptyAtts 0).result =
      Except.ok (200, Except.ok [emptyIdCoin]) := by
    rcases fwr_shape cEmptyAtts with ⟨_, heq⟩ | ⟨h0, _, _⟩ | ⟨h0, _, _, _⟩ | ⟨h0, _, _, _⟩
    · rw [heq]
      rfl
    all_goals simp [cEmptyAtts, retriable] at h0
  rw [getQuotes_success (by decide) hfetch (by decide)]
  exact congrArg Except.ok (by decide)

/-- Claim C1 (amended): a successful `getQuotes` call pairs each response
record with the first input id (in input order) whose resolved id equals the
record's id, provided that id is non-empty: the truthiness guard
`if (userInputId)` also drops a record whose first matching input id is the
JS-falsy empty string.  Records matching no input id are dropped, a later
input id resolving to the same canonical id as an earlier one gets no entry,
and every key of the map is a non-empty element of the input list. -/
theorem quote_correlation_c1 (assetIds : List String)
    (attempts : Nat → Outcome QuotesBody) (now : Int) (st : Nat)
    (data : List CoinGeckoResponse) (m : List (String × AssetQuote))
    (hfetch : (fetchWithRetry attempts 0).result = Except.ok (st, Except.ok data))
    (hok : getQuotes assetIds attempts now = Except.ok m) :
    (∀ k v, (k, v) ∈ m → k ∈ assetIds ∧ k ≠ "" ∧
      assetIds.find? (fun i => mapToGeckoId i == mapToGeckoId k) = some k ∧
      ∃ coin ∈ data, coin.id = mapToGeckoId k ∧ v = mapToAssetQuote coin now) ∧
    (∀ coin ∈ data, ∀ k, k ≠ "" →
      assetIds.find? (fun i => mapToGeckoId i == coin.id) = some k →
      ∃ v, (k, v) ∈ m) := by
  rcases getQuotes_ok_inv hfetch hok with ⟨rfl, rfl⟩ | ⟨hst, rfl⟩
  · refine ⟨fun k v h => absurd h (List.not_mem_nil _), ?_⟩
    intro coin hc k hne hfind
    simp at hfind
  · constructor
    · intro k v hm
      obtain ⟨coin, hc, hfind, hne, hv⟩ := correlate_mem hm
      have hmem : k ∈ assetIds := List.mem_of_find?_eq_some hfind
      have hid : mapToGeckoId k = coin.id := by
        simpa using List.find?_some hfind
      refine ⟨hmem, hne, ?_, coin, hc, hid.symm, hv⟩
      have hfun : (fun i => mapToGeckoId i == mapToGeckoId k) =
          (fun i => mapToGeckoId i == coin.id) := by
        funext i
        rw [hid]
      rw [hfun]
      exact hfind
    · intro coin hc k hne hfind
      exact correlate_covered hc hne hfind

/-- Witness for C1 (amended): the duplicate-canonical example of the spec,
inputs ["btc", "bitcoin"] with one upstream bitcoin record: the quote lands
under "btc". -/
theorem quote_correlation_c1_witness :
    ∃ v, ("btc", v) ∈ correlate ["btc", "bitcoin"] [btcCoin] 0 := by
  have hfetch : (fetchWithRetry c1Atts 0).result =
      Except.ok (200, Except.ok [btcCoin]) := by
    rcases fwr_shape c1Atts with ⟨_, heq⟩ | ⟨h0, _, _⟩ | ⟨h0, _, _, _⟩ | ⟨h0, _, _, _⟩
    · rw [heq]
      rfl
    all_goals simp [c1Atts, retriable] at h0
  exact (quote_correlation_c1 ["btc", "bitcoin"] c1Atts 0 200 [btcCoin] _ hfetch
    (getQuotes_success (by decide) hfetch (by decide))).2 btcCoin (by simp)
    "btc" (by decide) (by decide)

/-- Claim C8: an upstream record whose 24-hour percentage-change field is
absent yields a Quote with changePercent24h = 0, and the absence is not an
error: `getQuotes` still succeeds. -/
theorem missing_change_defaults_c8 :
    (∀ (coin : CoinGeckoResponse) (now : Int),
      coin.price_change_percentage_24h = none →
      (mapToAssetQuote coin now).changePercent24h = 0) ∧
    getQuotes ["btc"] c8Atts 7 =
      Except.ok [("btc", (⟨45000, 0, 7⟩ : AssetQuote))] := by
  constructor
  · intro coin now h
    simp [mapToAssetQuote, h]
  · have hfetch : (fetchWithRetry c8Atts 0).result =
        Except.ok (200, Except.ok [noChangeCoin]) := by
      rcases fwr_shape c8Atts with ⟨_, heq⟩ | ⟨h0, _, _⟩ | ⟨h0, _, _, _⟩ | ⟨h0, _, _, _⟩
      · rw [heq]
        rfl
      all_goals simp [c8Atts, retriable] at h0
    rw [getQuotes_success (by decide) hfetch (by decide)]
    exact congrArg Except.ok (by decide)

/-- Witness for C8 at a concrete record with the 24h-change field absent. -/
theorem missing_change_defaults_c8_witness :
    (mapToAssetQuote noChangeCoin 7).changePercent24h = 0 :=
  missing_change_defaults_c8.1 noChangeCoin 7 rfl

/-- Counterexample to C9 as stated: the code copies the upstream price
without validation, so an upstream record with price -1 produces a Quote
with a negative priceUsd on a successful `getQuotes` call. -/
theorem quote_nonneg_c9_counterexample :
    getQuotes ["btc"] c9Atts 0 =
      Except.ok [("btc", (⟨-1, 2, 0⟩ : AssetQuote))] ∧
    ((⟨-1, 2, 0⟩ : AssetQuote)).priceUsd < 0 := by
  constructor
  · have hfetch : (fetchWithRetry c9Atts 0).result =
        Except.ok (200, Except.ok [negCoin]) := by
      rcases fwr_shape c9Atts with ⟨_, heq⟩ | ⟨h0, _, _⟩ | ⟨h0, _, _, _⟩ | ⟨h0, _, _, _⟩
      · rw [heq]
        rfl
      all_goals simp [c9Atts, retriable] at h0
    rw [getQuotes_success (by decide) hfetch (by decide)]
    exact congrArg Except.ok (by decide)
  · decide

/-- Claim C9 (amended): every Quote of a successful `getQuotes` call copies
its priceUsd from some upstream record's current_price; consequently the
Quote prices are non-negative whenever every upstream price is non-negative
(the code itself performs no sign validation). -/
theorem quote_price_passthrough_c9 (assetIds : List String)
    (attempts : Nat → Outcome QuotesBody) (now : Int) (st : Nat)
    (data : List CoinGeckoResponse) (m : List (String × AssetQuote))
    (hfetch : (fetchWithRetry attempts 0).result = Except.ok (st, Except.ok data))
    (hok : getQuotes assetIds attempts now = Except.ok m) :
    (∀ k q, (k, q) ∈ m → ∃ coin ∈ data, q.priceUsd = coin.current_price) ∧
    ((∀ coin ∈ data, 0 ≤ coin.current_price) →
      ∀ k q, (k, q) ∈ m → 0 ≤ q.priceUsd) := by
  rcases getQuotes_ok_inv hfetch hok with ⟨rfl, rfl⟩ | ⟨hst, rfl⟩
  · exact ⟨fun k q h => absurd h (List.not_mem_nil _),
      fun _ k q h => absurd h (List.not_mem_nil _)⟩
  · constructor
    · intro k q hm
      obtain ⟨coin, hc, -, -, hv⟩ := correlate_mem hm
      exact ⟨coin, hc, by rw [hv]; rfl⟩
    · intro hpos k q hm
      obtain ⟨coin, hc, -, -, hv⟩ := correlate_mem hm
      rw [hv]
      exact hpos coin hc

/-- Witness for C9 (amended): the concrete bitcoin record with non-negative
price yields a quote with non-negative price. -/
theorem quote_price_passthrough_c9_witness :
    0 ≤ ((⟨45000, 2, 0⟩ : AssetQuote)).priceUsd := by
  have hfetch : (fetchWithRetry c1Atts 0).result =
      Except.ok (200, Except.ok [btcCoin]) := by
    rcases fwr_shape c1Atts with ⟨_, heq⟩ | ⟨h0, _, _⟩ | ⟨h0, _, _, _⟩ | ⟨h0, _, _, _⟩
    · rw [heq]
      rfl
    all_goals simp [c1Atts, retriable] at h0
  exact (quote_price_passthrough_c9 ["btc"] c1Atts 0 200 [btcCoin] _ hfetch
    (getQuotes_success (by decide) hfetch (by decide))).2 (by decide) "btc"
    (⟨45000, 2, 0⟩ : AssetQuote) (by decide)

/-- Counterexample to C6 as stated: a parsed response containing a record
with market-cap rank 0 (present, hence kept by the filter) is sorted as if
its rank were 999999, because the comparator `rank || 999999` treats the
JS-falsy rank 0 like null; the returned list is then not ascending in rank. -/
theorem search_sorted_c6_counterexample :
    searchCoins "btc" c6Atts = [rankOneCoin, rankZeroCoin] ∧
    ¬ rankAsc [rankOneCoin, rankZeroCoin] := by
  constructor
  · have hfetch : (fetchWithRetry c6Atts 0).result =
        Except.ok (200, Except.ok [rankZeroCoin, rankOneCoin]) := by
      rcases fwr_shape c6Atts with ⟨_, heq⟩ | ⟨h0, _, _⟩ | ⟨h0, _, _, _⟩ | ⟨h0, _, _, _⟩
      · rw [heq]
        rfl
      all_goals simp [c6Atts, retriable] at h0
    rw [searchCoins_ok hfetch (by decide) (by decide)]
    decide
  · simp only [rankAsc, List.pairwise_cons]
    intro h
    have := h.1 rankZeroCoin (by simp)
    revert this
    decide

/-- Claim C6 (amended): for every successfully parsed search response, the
list returned by `searchCoins` is the 10-element prefix of an ascending
comparator-sorted permutation of exactly the results whose market-cap rank
is present; it is ascending in rank provided no present rank is 0 (a rank of
exactly 0 is JS-falsy and is sorted as 999999 by the comparator). -/
theorem search_postprocess_c6 (query : String)
    (attempts : Nat → Outcome SearchBody) (st : Nat) (coins : List SearchResult)
    (hfetch : (fetchWithRetry attempts 0).result = Except.ok (st, Except.ok coins))
    (hst : httpOk st = true) (hq : trimStr query ≠ "") :
    (∀ c ∈ searchCoins query attempts, c.market_cap_rank.isSome = true) ∧
    (searchCoins query attempts).length =
      min 10 (coins.filter (fun c => c.market_cap_rank.isSome)).length ∧
    (∃ l : List SearchResult,
      List.Perm l (coins.filter (fun c => c.market_cap_rank.isSome)) ∧
      List.Pairwise (fun a b => rankLe a b = true) l ∧
      searchCoins query attempts = List.take 10 l) ∧
    ((∀ c ∈ coins, c.market_cap_rank ≠ some 0) →
      rankAsc (searchCoins query attempts)) := by
  rw [searchCoins_ok hfetch hst hq]
  have hperm := stableSort_perm rankLe
    (coins.filter (fun c => c.market_cap_rank.isSome))
  have htot : ∀ a b : SearchResult, rankLe a b = true ∨ rankLe b a = true := by
    intro a b
    rcases Int.le_total (sortKey a) (sortKey b) with h | h
    · exact Or.inl (by simpa [rankLe] using h)
    · exact Or.inr (by simpa [rankLe] using h)
  have htrans : ∀ a b c : SearchResult,
      rankLe a b = true → rankLe b c = true → rankLe a c = true := by
    intro a b c hab hbc
    simp only [rankLe, decide_eq_true_eq] at hab hbc ⊢
    omega
  have hsorted := stableSort_pairwise rankLe htot htrans
    (coins.filter (fun c => c.market_cap_rank.isSome))
  have hmem_filter : ∀ c,
      c ∈ (stableSort rankLe (coins.filter (fun c => c.market_cap_rank.isSome))).take 10 →
      c ∈ coins ∧ c.market_cap_rank.isSome = true := by
    intro c hc
    exact List.mem_filter.mp
      (hperm.mem_iff.mp ((List.take_sublist 10 _).mem hc))
  refine ⟨fun c hc => (hmem_filter c hc).2, ?_, ⟨_, hperm, hsorted, rfl⟩, ?_⟩
  · rw [List.length_take, hperm.length_eq]
  · intro hnz
    have hpw := List.Pairwise.sublist (List.take_sublist 10 _) hsorted
    refine List.Pairwise.imp_of_mem ?_ hpw
    intro a b ha hb hr
    obtain ⟨hac, has⟩ := hmem_filter a ha
    obtain ⟨hbc, hbs⟩ := hmem_filter b hb
    obtain ⟨ra, hra⟩ := Option.isSome_iff_exists.mp has
    obtain ⟨rb, hrb⟩ := Option.isSome_iff_exists.mp hbs
    have hraz : ra ≠ 0 := by
      intro h
      exact hnz a hac (by rw [hra, h])
    have hrbz : rb ≠ 0 := by
      intro h
      exact hnz b hbc (by rw [hrb, h])
    have hkey : sortKey a ≤ sortKey b := by
      simpa [rankLe, decide_eq_true_eq] using hr
    rw [sortKey, sortKey, hra, hrb] at hkey
    dsimp only at hkey
    rw [if_neg hraz, if_neg hrbz] at hkey
    rw [hra, hrb]
    simpa using hkey

/-- Witness for C6 (amended): ranked records 2 and 1 plus a rankless one
come back as the ranked ones in ascending rank order. -/
theorem search_postprocess_c6_witness :
    rankAsc (searchCoins "eth" c6bAtts) := by
  have hfetch : (fetchWithRetry c6bAtts 0).result =
      Except.ok (200, Except.ok [rankTwoCoin, rankOneCoin, noRankCoin]) := by
    rcases fwr_shape c6bAtts with ⟨_, heq⟩ | ⟨h0, _, _⟩ | ⟨h0, _, _, _⟩ | ⟨h0, _, _, _⟩
    · rw [heq]
      rfl
    all_goals simp [c6bAtts, retriable] at h0
  exact (search_postprocess_c6 "eth" c6bAtts 200
    [rankTwoCoin, rankOneCoin, noRankCoin] hfetch (by decide) (by decide)).2.2.2
    (by decide)

end CryptoService
